import Mathlib

/-!
Verification of the `advanced-vector` repository: a growable contiguous
container `Vector<T>` built on a raw-storage owner `RawMemory<T>`
(src/advanced-vector/vector.h).

Three shallow embeddings of the same source are used, at increasing levels
of detail:

* `VecL` — a pure value model: the live elements as a `List α` plus the
  allocated capacity.  Used for the growth policy (`EmplaceBack`),
  `Emplace`/`Insert`, the move operations and self copy-assignment.
  Operations that the claims quantify over element construction /
  destruction / deallocation also return an event log (`Ev`).

* `VecB` — a slot model: the buffer is a `List (Option α)` of length
  `capacity`, where `some x` is a live constructed element and `none` a raw
  uninitialized slot; `size` marks the live prefix.  Element construction
  can fail (a C++ constructor throwing), threaded through a `Ctors` record;
  a fallible operation returns `Except (VecB α) ...` whose error value is
  the observable state of the vector at the moment the exception
  propagates out of the member function.  Used for the exception-safety
  claims about `EmplaceBack` growth and the in-place `Emplace` path, and
  for `Erase`.

* `Heap`/`HVec` — a store model: buffers live in a store addressed by
  `Nat`, a vector is an address plus a size.  Used for the
  copy-independence claim (a duplicated vector owns a fresh buffer, so
  mutating the duplicate never touches the original's buffer).
-/

set_option autoImplicit false
set_option linter.unusedVariables false

universe u v

namespace VectorModel

/-! ### Shared relocation primitives

`std::move_backward` / `std::move` over a contiguous buffer, as used by
`Vector::Emplace` and `Vector::Erase`.  A moved-from element is modelled as
still holding its value (the source code only ever destroys or overwrites
moved-from slots before they can be observed). -/

/-- `std::move_backward(l + first, l + last, l + last + 1)`: the range
`[first, last)` is shifted one slot toward the back (destination
`[first + 1, last + 1)`), assigning back to front; slot `first` keeps its
(moved-from) value. -/
def moveBackwardOne {β : Type u} (l : List β) (first last : Nat) : List β :=
  l.take (first + 1) ++ (l.drop first).take (last - first) ++ l.drop (last + 1)

/-- `std::move(l + first, l + last, l + (first - 1))`: the range
`[first, last)` is shifted one slot toward the front (destination
`[first - 1, last - 1)`), assigning front to back; slot `last - 1` keeps its
(moved-from) value. -/
def moveLeftOne {β : Type u} (l : List β) (first last : Nat) : List β :=
  l.take (first - 1) ++ (l.drop first).take (last - first) ++ l.drop (last - 1)

/-- Element-lifecycle / memory events performed by an operation:
placement-construction of an element, assignment to a live element,
destructor call on a live element, deallocation of a raw block. -/
inductive Ev (α : Type u) where
  | construct : α → Ev α
  | assign : α → Ev α
  | destroy : Ev α
  | dealloc : Ev α
deriving DecidableEq

/-! ### The pure value model `VecL`

`Vector<T>` as the list of its live elements plus the allocated capacity
(`data_.Capacity()`).  This model describes the exception-free executions;
the slot-level model `VecB` below refines it where exceptions matter. -/

/-- `Vector<T>`: live elements `[0, size_)` and `data_.Capacity()`. -/
structure VecL (α : Type u) where
  elems : List α
  cap : Nat
deriving DecidableEq

namespace VecL

variable {α : Type u}

/-- `Vector()` — size 0, capacity 0, owning nothing. -/
def empty : VecL α := ⟨[], 0⟩

/-- `Vector::Size()`. -/
def size (v : VecL α) : Nat := v.elems.length

/-- `Vector::Swap` — swaps the two `RawMemory`s and exchanges the sizes. -/
def swap (a b : VecL α) : VecL α × VecL α := (⟨b.elems, b.cap⟩, ⟨a.elems, a.cap⟩)

/-- `Vector::EmplaceBack` (success path, lines 223-235): when
`size_ == data_.Capacity()` a new buffer of `size_ == 0 ? 1 :
data_.Capacity() * 2` slots is allocated, the new element is constructed at
slot `size_` of the new buffer, the old elements are transferred by
`CopyOrMove`, destroyed in the old buffer, and the buffers are swapped;
otherwise the new element is constructed at slot `size_` in place.  In both
branches the live elements afterwards are the old ones followed by the new
one. -/
def emplaceBack (v : VecL α) (x : α) : VecL α :=
  if v.elems.length = v.cap then
    { elems := v.elems ++ [x], cap := if v.elems.length = 0 then 1 else v.cap * 2 }
  else
    { elems := v.elems ++ [x], cap := v.cap }

/-- `Vector::Emplace(pos, values...)` (success path, lines 237-265), with
`p = pos - begin()`.  Returns the updated vector and the index
`pos_index` the returned iterator points at.
* `pos == end()`: `EmplaceBack` then return `end() - 1`;
* `size_ < data_.Capacity()`: `new (end()) T(std::move(*(end() - 1)))`,
  `std::move_backward(pos, end() - 1, end())`, then `*pos = T(values...)`;
* otherwise: new buffer of `size_ == 0 ? 1 : Capacity() * 2` slots, the new
  element constructed at index `p`, the prefix `[0, p)` and suffix
  `[p, size_)` transferred around it, old elements destroyed, buffers
  swapped. -/
def emplace (v : VecL α) (p : Nat) (x : α) : VecL α × Nat :=
  if p = v.elems.length then
    let w := emplaceBack v x
    (w, w.elems.length - 1)
  else if v.elems.length < v.cap then
    let l1 := v.elems ++ v.elems.drop (v.elems.length - 1)
    let l2 := moveBackwardOne l1 p (v.elems.length - 1)
    ({ elems := l2.set p x, cap := v.cap }, p)
  else
    ({ elems := v.elems.take p ++ x :: v.elems.drop p,
       cap := if v.elems.length = 0 then 1 else v.cap * 2 }, p)

/-- `Vector(Vector&& other)` (lines 106-108): default-member-initializes
`this` (null buffer, capacity 0, size 0) and calls `Swap(other)`.  No element
is constructed or destroyed and no block is freed, so the event log is
empty.  Result: (`this`, `other`) after the construction, with the log. -/
def moveCtor (other : VecL α) : (VecL α × VecL α) × List (Ev α) :=
  (swap empty other, [])

/-- `Vector::operator=(Vector&&)` (lines 183-187):
`data_ = std::move(rhs.data_); size_ = std::exchange(rhs.size_, 0);`.
`RawMemory::operator=(RawMemory&&)` (lines 22-28) overwrites `buffer_` and
`capacity_` with `rhs`'s values and nulls `rhs`, calling no destructor and no
`Deallocate`; `Vector`'s move assignment adds no element operation either, so
the event log is empty.  Result: (`this`, `rhs`) after the assignment. -/
def moveAssign (tgt rhs : VecL α) : (VecL α × VecL α) × List (Ev α) :=
  ((⟨rhs.elems, rhs.cap⟩, ⟨[], 0⟩), [])

/-- `Vector::operator=(const Vector&)` (lines 163-181).  `same` models the
pointer identity test `this == &rhs`: when it holds the operator returns
`*this` immediately.  Otherwise, if `rhs.size_ > data_.Capacity()`, a full
copy `Vector rhs_copy(rhs)` is built (copy-constructing every element of
`rhs`) and swapped in; the old elements are destroyed and the old block
freed when `rhs_copy` is destroyed.  If the source fits, the overlap is
overwritten by `std::copy` assignments in index order and the excess is
either destroyed (source shorter) or copy-constructed into uninitialized
slots (source longer). -/
def copyAssign (tgt rhs : VecL α) (same : Bool) : VecL α × List (Ev α) :=
  if same then (tgt, [])
  else if tgt.cap < rhs.elems.length then
    (⟨rhs.elems, rhs.elems.length⟩,
      (rhs.elems.map Ev.construct) ++ (tgt.elems.map fun _ => Ev.destroy) ++ [Ev.dealloc])
  else if rhs.elems.length < tgt.elems.length then
    (⟨rhs.elems, tgt.cap⟩,
      (rhs.elems.map Ev.assign) ++ ((tgt.elems.drop rhs.elems.length).map fun _ => Ev.destroy))
  else
    (⟨rhs.elems, tgt.cap⟩,
      ((rhs.elems.take tgt.elems.length).map Ev.assign) ++
        ((rhs.elems.drop tgt.elems.length).map Ev.construct))

end VecL

end VectorModel

namespace VectorModel

namespace VecL

variable {α : Type u}

/-- The capacity invariant maintained by a run of appends that starts from
`Vector()`: after `k` appends the capacity is a power of two, is at least
`k`, and is below `2 * k` — i.e. it is the smallest power of two ≥ `k`
(except in the initial state `k = 0`, where nothing is allocated). -/
def GoodCap (k c : Nat) : Prop :=
  (k = 0 ∧ c = 0) ∨ ((∃ j, c = 2 ^ j) ∧ k ≤ c ∧ c < 2 * k)

/-- `Vector::Insert(pos, value)` (lines 267-274): both overloads delegate to
`Emplace(pos, ...)`. -/
def insert {α : Type u} (v : VecL α) (p : Nat) (x : α) : VecL α × Nat :=
  emplace v p x

end VecL

end VectorModel

namespace VectorModel

/-! ### The slot model `VecB` with fallible element construction

The buffer is the raw block of `RawMemory<T>`: a list of `capacity_` slots,
`some x` = live constructed element, `none` = raw uninitialized memory.
A well-formed vector has its live elements exactly on `[0, size_)`. -/

/-- `Vector<T>` at slot level: `data_`'s block contents and `size_`. -/
structure VecB (α : Type u) where
  buf : List (Option α)
  size : Nat
deriving DecidableEq

namespace VecB

variable {α : Type u}

/-- The invariant of `Vector`: `size_ ≤ capacity_`, and a slot holds a live
object exactly when its index is below `size_`. -/
def WF (v : VecB α) : Prop :=
  v.size ≤ v.buf.length ∧
  ∀ i, i < v.buf.length → ((v.buf.getD i none).isSome ↔ i < v.size)

instance (v : VecB α) : Decidable (WF v) := by
  unfold WF
  infer_instance

end VecB

/-- The element-type operations `Vector<T>` invokes, with failure.
`mkNew` is the constructor `T(std::forward<Types>(values)...)` of the new
element, `copy` the copy constructor used by duplication; `none` models a
throwing constructor.  Both thread a constructor state `σ` (e.g. a counter,
for a type that throws on its n-th construction).  `nothrowMove` is
`std::is_nothrow_move_constructible_v<T> || !std::is_copy_constructible_v<T>`,
the compile-time test `CopyOrMove` uses to pick ownership transfer over
duplication. -/
structure Ctors (σ : Type u) (α : Type v) where
  mkNew : σ → Option (α × σ)
  copy : α → σ → Option (α × σ)
  nothrowMove : Bool

/-- `std::uninitialized_copy_n(src, n, dst)` over the source slots: elements
are copy-constructed in index order; if a copy throws, the copies already
constructed are destroyed by the algorithm itself and the failure propagates
(`none` result).  Copying from a raw slot cannot occur on a well-formed
vector and is modelled as a failure. -/
def uninitCopyN {σ : Type u} {α : Type v} (cp : α → σ → Option (α × σ)) :
    List (Option α) → σ → Option (List (Option α) × σ)
  | [], s => some ([], s)
  | none :: _, _ => none
  | some x :: xs, s =>
    match cp x s with
    | none => none
    | some (y, s1) =>
      match uninitCopyN cp xs s1 with
      | none => none
      | some (ys, s2) => some (some y :: ys, s2)

/-- `Vector::CopyOrMove(new_data)` (lines 147-152): nothrow-movable or
non-copyable element types are transferred by `std::uninitialized_move_n`
(never fails, values carried over); every other type is duplicated by
`std::uninitialized_copy_n`, which may fail. -/
def copyOrMove {σ : Type u} {α : Type v} (c : Ctors σ α)
    (src : List (Option α)) (s : σ) : Option (List (Option α) × σ) :=
  if c.nothrowMove then some (src, s) else uninitCopyN c.copy src s

/-- `Vector::EmplaceBack` (lines 223-235) with fallible element
construction.  Growth path (`size_ == data_.Capacity()`): allocate
`RawMemory<T> new_data(size_ == 0 ? 1 : Capacity() * 2)`; construct the new
element at `new_data + size_`; `CopyOrMove(new_data)`;
`std::destroy_n(data_, size_)`; `data_.Swap(new_data)`; `++size_`.  If the
new element's constructor or one of the copies throws, the partially filled
`new_data` is discarded without `*this` having been touched, and the error
value carries the (unchanged) observable state of the vector.  In-place path
(`size_ < Capacity()`): construct at slot `size_`; a throw there also leaves
`*this` untouched. -/
def emplaceBackF {σ : Type u} {α : Type v} (c : Ctors σ α) (v : VecB α) (s : σ) :
    Except (VecB α) (VecB α × σ) :=
  if v.size = v.buf.length then
    let newCap := if v.size = 0 then 1 else v.buf.length * 2
    match c.mkNew s with
    | none => Except.error v
    | some (x, s1) =>
      match copyOrMove c (v.buf.take v.size) s1 with
      | none => Except.error v
      | some (ys, s2) =>
        Except.ok (⟨ys ++ some x :: List.replicate (newCap - (v.size + 1)) none, v.size + 1⟩, s2)
  else
    match c.mkNew s with
    | none => Except.error v
    | some (x, s1) => Except.ok (⟨v.buf.set v.size (some x), v.size + 1⟩, s1)

/-- `Vector::Emplace(pos, values...)` (lines 237-265) with fallible
construction of the new element from its arguments; the transfer of
existing elements (move construction / move assignment during the shift) is
modelled as non-failing, matching nothrow-movable element types.
`p = pos - begin()`.  The in-place branch (`pos != end()`,
`size_ < Capacity()`) runs `new (end()) T(std::move(*(end() - 1)))`, then
`std::move_backward(pos, end() - 1, end())`, and only then constructs the
temporary `T(std::forward<Types>(values)...)` for `*pos = T(...)`: if that
constructor throws, the exception leaves the function with the buffer
already shifted and slot `size_` live, `size_` unchanged — the error value
records exactly that state.  The reallocating branch constructs the new
element first and transfers the prefix and suffix around it, so a throw
there leaves `*this` untouched. -/
def emplaceF {σ : Type u} {α : Type v} (c : Ctors σ α) (v : VecB α) (p : Nat) (s : σ) :
    Except (VecB α) (VecB α × σ × Nat) :=
  if p = v.size then
    match emplaceBackF c v s with
    | Except.error w => Except.error w
    | Except.ok (w, s1) => Except.ok (w, s1, w.size - 1)
  else if v.size < v.buf.length then
    let b1 := v.buf.set v.size (v.buf.getD (v.size - 1) none)
    let b2 := moveBackwardOne b1 p (v.size - 1)
    match c.mkNew s with
    | none => Except.error ⟨b2, v.size⟩
    | some (x, s1) => Except.ok (⟨b2.set p (some x), v.size + 1⟩, s1, p)
  else
    let newCap := if v.size = 0 then 1 else v.buf.length * 2
    match c.mkNew s with
    | none => Except.error v
    | some (x, s1) =>
      match copyOrMove c (v.buf.take p) s1 with
      | none => Except.error v
      | some (pre, s2) =>
        match copyOrMove c ((v.buf.drop p).take (v.size - p)) s2 with
        | none => Except.error v
        | some (suf, s3) =>
          Except.ok
            (⟨pre ++ some x :: suf ++ List.replicate (newCap - (v.size + 1)) none, v.size + 1⟩,
              s3, p)

/-- `Vector::Erase(pos)` (lines 276-282), `p = pos - begin()`:
`std::move(begin() + p + 1, end(), begin() + p)` shifts `[p + 1, size_)` one
slot left by move assignment, front to back; `--size_`; `end()->~T()`
destroys the vacated slot (index `size_ - 1` of the original size); the
returned iterator is `begin() + p`. -/
def eraseB {α : Type u} (v : VecB α) (p : Nat) : VecB α × Nat :=
  let b1 := moveLeftOne v.buf (p + 1) v.size
  (⟨b1.set (v.size - 1) none, v.size - 1⟩, p)

/-- A throwing element type for the witnesses: every construction — from
arguments or by copy — bumps a counter, and construction number `n` throws.
The from-arguments constructor produces the value 9. -/
def throwOnNth (n : Nat) : Ctors Nat Nat :=
  { mkNew := fun k => if k + 1 = n then none else some (9, k + 1)
    copy := fun x k => if k + 1 = n then none else some (x, k + 1)
    nothrowMove := false }

/-- A copyable element type whose from-arguments constructor always throws
and whose transfer is nothrow (so the shift itself cannot fail). -/
def throwOnNew : Ctors Nat Nat :=
  { mkNew := fun _ => none
    copy := fun x k => some (x, k)
    nothrowMove := true }

/-- Witness state for C1: a full vector of three live elements. -/
def vFull3 : VecB Nat := ⟨[some 1, some 2, some 3], 3⟩

/-- Witness state for C8: two live elements in a block of capacity 3. -/
def vGap3 : VecB Nat := ⟨[some 10, some 20, none], 2⟩

end VectorModel

namespace VectorModel

/-! ### The heap model for copy independence (claim C5)

Blocks allocated by `RawMemory` live in a store addressed by allocation
order; a `Vector` holds the address of its block plus `size_`.  A freed
block's address is simply never reused, so two distinct addresses never
alias.  Element values are pure (copies coincide with their source values);
what this model adds over `VecL`/`VecB` is *which block* each operation
writes. -/

/-- The allocator state: all blocks ever handed out, by address. -/
structure Heap (α : Type u) where
  bufs : List (List (Option α))

namespace Heap

variable {α : Type u}

/-- `RawMemory<T>::Allocate(n)`: a fresh block of `n` raw slots, at a fresh
address.  Returns the new heap and the address. -/
def alloc (h : Heap α) (n : Nat) : Heap α × Nat :=
  (⟨h.bufs ++ [List.replicate n none]⟩, h.bufs.length)

/-- The contents of the block at address `a`. -/
def bufAt (h : Heap α) (a : Nat) : List (Option α) :=
  h.bufs.getD a []

/-- Overwrite the block at address `a` with contents `b`. -/
def writeBuf (h : Heap α) (a : Nat) (b : List (Option α)) : Heap α :=
  ⟨h.bufs.set a b⟩

/-- Slot `i` of the block at address `a`. -/
def slot (h : Heap α) (a i : Nat) : Option α :=
  (h.bufAt a).getD i none

end Heap

/-- `Vector<T>` in the heap model: the address of its `RawMemory` block and
`size_`. -/
structure HVec where
  addr : Nat
  size : Nat

/-- `data_.Capacity()`: the length of the owned block. -/
def capH {α : Type u} (h : Heap α) (v : HVec) : Nat :=
  (h.bufAt v.addr).length

/-- Sets slots `[i, j)` of a block to `o` (destruction writes `none`,
`std::uninitialized_fill`-style construction writes `some`). -/
def setRange {α : Type u} (b : List (Option α)) (i j : Nat) (o : Option α) :
    List (Option α) :=
  b.take i ++ ((b.take j).drop i).map (fun _ => o) ++ b.drop j

/-- `std::destroy_n(block, k)`: slots `[0, k)` become raw. -/
def destroySlots {α : Type u} (b : List (Option α)) (k : Nat) : List (Option α) :=
  setRange b 0 k none

/-- The copies `std::uninitialized_copy_n(src + 0, k, dst)` constructs (and
likewise the values `std::uninitialized_move_n` transfers): the contents of
slots `[0, k)` of the block at `a`. -/
def copiedSlots {α : Type u} (h : Heap α) (a k : Nat) : List (Option α) :=
  (List.range k).map (h.slot a)

/-- `Vector(const Vector& other)` (lines 101-104): allocate a fresh block of
`other.size_` slots and copy-construct the `other.size_` live elements into
it; the new vector owns the fresh block with size and capacity
`other.size_`. -/
def copyCtorH {α : Type u} (h : Heap α) (src : HVec) : Heap α × HVec :=
  ((h.alloc src.size).1.writeBuf (h.alloc src.size).2 (copiedSlots h src.addr src.size),
    ⟨(h.alloc src.size).2, src.size⟩)

/-- `Vector::PushBack(value)` / `EmplaceBack` (lines 218-235).  Growth path:
fresh block of `size_ == 0 ? 1 : Capacity() * 2` slots, the new element at
slot `size_` with the old elements transferred below it, then
`std::destroy_n` on the old block (freed without reuse), buffers swapped.
In-place path: construct at slot `size_` of the own block. -/
def pushBackH {α : Type u} (h : Heap α) (v : HVec) (x : α) : Heap α × HVec :=
  if v.size = capH h v then
    ((((h.alloc (if v.size = 0 then 1 else capH h v * 2)).1.writeBuf
          (h.alloc (if v.size = 0 then 1 else capH h v * 2)).2
          (copiedSlots h v.addr v.size ++ some x ::
            List.replicate ((if v.size = 0 then 1 else capH h v * 2) - (v.size + 1)) none)).writeBuf
        v.addr (destroySlots (h.bufAt v.addr) v.size)),
      ⟨(h.alloc (if v.size = 0 then 1 else capH h v * 2)).2, v.size + 1⟩)
  else
    (h.writeBuf v.addr ((h.bufAt v.addr).set v.size (some x)), ⟨v.addr, v.size + 1⟩)

/-- `Vector::PopBack` (lines 213-216): destroy the last live element,
decrement `size_`. -/
def popBackH {α : Type u} (h : Heap α) (v : HVec) : Heap α × HVec :=
  (h.writeBuf v.addr ((h.bufAt v.addr).set (v.size - 1) none), ⟨v.addr, v.size - 1⟩)

/-- `Vector::Reserve(new_capacity)` (lines 139-145): no-op if it does not
exceed the capacity; otherwise fresh block, `CopyOrMove`, destroy old
elements, swap. -/
def reserveH {α : Type u} (h : Heap α) (v : HVec) (n : Nat) : Heap α × HVec :=
  if n ≤ capH h v then (h, v)
  else
    ((((h.alloc n).1.writeBuf (h.alloc n).2
          (copiedSlots h v.addr v.size ++ List.replicate (n - v.size) none)).writeBuf
        v.addr (destroySlots (h.bufAt v.addr) v.size)),
      ⟨(h.alloc n).2, v.size⟩)

/-- `Vector::Resize(new_size)` (lines 203-211): shrink destroys
`[new_size, size_)`; grow reserves then value-constructs `[size_, new_size)`
(default value `d`). -/
def resizeH {α : Type u} (h : Heap α) (v : HVec) (n : Nat) (d : α) : Heap α × HVec :=
  if n < v.size then
    (h.writeBuf v.addr (setRange (h.bufAt v.addr) n v.size none), ⟨v.addr, n⟩)
  else
    ((reserveH h v n).1.writeBuf (reserveH h v n).2.addr
        (setRange ((reserveH h v n).1.bufAt (reserveH h v n).2.addr) v.size n (some d)),
      ⟨(reserveH h v n).2.addr, n⟩)

/-- `Vector::Emplace(pos, value)` (lines 237-265) in the heap model,
`p = pos - begin()`: end position delegates to `PushBack`; in place, the
shift runs inside the own block; otherwise fresh block with the new element
at index `p` and the prefix/suffix transferred around it, old elements
destroyed. -/
def emplaceH {α : Type u} (h : Heap α) (v : HVec) (p : Nat) (x : α) : Heap α × HVec :=
  if p = v.size then
    pushBackH h v x
  else if v.size < capH h v then
    (h.writeBuf v.addr
        ((moveBackwardOne
            ((h.bufAt v.addr).set v.size ((h.bufAt v.addr).getD (v.size - 1) none))
            p (v.size - 1)).set p (some x)),
      ⟨v.addr, v.size + 1⟩)
  else
    ((((h.alloc (if v.size = 0 then 1 else capH h v * 2)).1.writeBuf
          (h.alloc (if v.size = 0 then 1 else capH h v * 2)).2
          (copiedSlots h v.addr p ++ some x ::
            (((h.bufAt v.addr).drop p).take (v.size - p) ++
              List.replicate ((if v.size = 0 then 1 else capH h v * 2) - (v.size + 1)) none))).writeBuf
        v.addr (destroySlots (h.bufAt v.addr) v.size)),
      ⟨(h.alloc (if v.size = 0 then 1 else capH h v * 2)).2, v.size + 1⟩)

/-- `Vector::Erase(pos)` (lines 276-282) in the heap model: the left shift
and the destruction of the vacated slot happen inside the own block. -/
def eraseH {α : Type u} (h : Heap α) (v : HVec) (p : Nat) : Heap α × HVec :=
  (h.writeBuf v.addr
      ((moveLeftOne (h.bufAt v.addr) (p + 1) v.size).set (v.size - 1) none),
    ⟨v.addr, v.size - 1⟩)

/-- `Vector::operator=(const Vector&)` (lines 163-181) in the heap model,
for distinct objects (`this != &rhs`; the self-assignment test is claim
C9).  If `rhs.size_ > data_.Capacity()`: copy-and-swap — `Vector
rhs_copy(rhs)` builds a duplicate in a fresh block, `Swap(rhs_copy)`, and
`rhs_copy`'s destructor destroys the old elements in the old block before
freeing it.  Otherwise everything happens inside the target's own block:
the overlap is overwritten from `rhs` in index order and the excess is
destroyed (source shorter) or copy-constructed (source not shorter). -/
def copyAssignH {α : Type u} (h : Heap α) (tgt src : HVec) : Heap α × HVec :=
  if capH h tgt < src.size then
    ((copyCtorH h src).1.writeBuf tgt.addr
        (destroySlots ((copyCtorH h src).1.bufAt tgt.addr) tgt.size),
      (copyCtorH h src).2)
  else if src.size < tgt.size then
    (h.writeBuf tgt.addr
        (setRange (copiedSlots h src.addr src.size ++ (h.bufAt tgt.addr).drop src.size)
          src.size tgt.size none),
      ⟨tgt.addr, src.size⟩)
  else
    (h.writeBuf tgt.addr
        (copiedSlots h src.addr src.size ++ (h.bufAt tgt.addr).drop src.size),
      ⟨tgt.addr, src.size⟩)

/-- The mutating public operations, used to quantify over "any subsequent
mutation of B" in claim C5. -/
inductive Mut (α : Type u) where
  | push : α → Mut α
  | pop : Mut α
  | reserveCall : Nat → Mut α
  | resizeCall : Nat → α → Mut α
  | emplaceAt : Nat → α → Mut α
  | eraseAt : Nat → Mut α

def applyMut {α : Type u} : Mut α → Heap α → HVec → Heap α × HVec
  | Mut.push x, h, v => pushBackH h v x
  | Mut.pop, h, v => popBackH h v
  | Mut.reserveCall n, h, v => reserveH h v n
  | Mut.resizeCall n d, h, v => resizeH h v n d
  | Mut.emplaceAt p x, h, v => emplaceH h v p x
  | Mut.eraseAt p, h, v => eraseH h v p

def applyMuts {α : Type u} : List (Mut α) → Heap α → HVec → Heap α × HVec
  | [], h, v => (h, v)
  | m :: ms, h, v => applyMuts ms (applyMut m h v).1 (applyMut m h v).2

end VectorModel

namespace VectorModel

/-- Witness heap for C5: block 0 holds `A`'s two elements, block 1 is a raw
one-slot block owned by `b0`. -/
def heapW : Heap Nat := ⟨[[some 1, some 2], [none]]⟩

/-- `A` in the witness heap: two live elements at address 0. -/
def aW : HVec := ⟨0, 2⟩

/-- An existing empty vector at address 1, the copy-assignment target. -/
def b0W : HVec := ⟨1, 0⟩

end VectorModel

/-! ### A small `List.getD` lemma kit

All three models read buffer slots with `List.getD`; these lemmas are the
slot-access facts used throughout. -/

namespace VectorModel

theorem getD_set_eq {β : Type u} (l : List β) (i : Nat) (x d : β)
    (h : i < l.length) : (l.set i x).getD i d = x := by
  induction l generalizing i with
  | nil => simp at h
  | cons a t ih =>
    cases i with
    | zero => rfl
    | succ j => simpa using ih j (by simpa using h)

theorem getD_set_ne {β : Type u} (l : List β) (i j : Nat) (x d : β)
    (h : i ≠ j) : (l.set i x).getD j d = l.getD j d := by
  induction l generalizing i j with
  | nil => simp [List.getD]
  | cons a t ih =>
    cases i with
    | zero =>
      cases j with
      | zero => exact absurd rfl h
      | succ k => rfl
    | succ i' =>
      cases j with
      | zero => rfl
      | succ k => simpa using ih i' k (fun hc => h (by simp [hc]))

theorem getD_append_lt {β : Type u} (l m : List β) (j : Nat) (d : β)
    (h : j < l.length) : (l ++ m).getD j d = l.getD j d := by
  induction l generalizing j with
  | nil => simp at h
  | cons a t ih =>
    cases j with
    | zero => rfl
    | succ k => simpa using ih k (by simpa using h)

theorem getD_append_ge {β : Type u} (l m : List β) (j : Nat) (d : β)
    (h : l.length ≤ j) : (l ++ m).getD j d = m.getD (j - l.length) d := by
  induction l generalizing j with
  | nil => simp
  | cons a t ih =>
    cases j with
    | zero => simp at h
    | succ k => simpa using ih k (by simpa using h)

theorem getD_take {β : Type u} (l : List β) (k j : Nat) (d : β)
    (h : j < k) : (l.take k).getD j d = l.getD j d := by
  induction l generalizing k j with
  | nil => simp
  | cons a t ih =>
    cases k with
    | zero => simp at h
    | succ k' =>
      cases j with
      | zero => rfl
      | succ j' => simpa using ih k' j' (by omega)

theorem getD_drop {β : Type u} (l : List β) (k j : Nat) (d : β) :
    (l.drop k).getD j d = l.getD (k + j) d := by
  induction l generalizing k with
  | nil => simp
  | cons a t ih =>
    cases k with
    | zero => simp
    | succ k' => simp [Nat.succ_add, ih k']

theorem getD_map_range {β : Type u} (f : Nat → β) (k i : Nat) (d : β)
    (h : i < k) : ((List.range k).map f).getD i d = f i := by
  induction k generalizing i with
  | zero => omega
  | succ k' ih =>
    rcases Nat.lt_succ_iff_lt_or_eq.mp h with h' | h'
    · rw [List.range_succ, List.map_append,
        getD_append_lt _ _ _ _ (by simpa using h')]
      exact ih i h'
    · subst h'
      rw [List.range_succ, List.map_append,
        getD_append_ge _ _ _ _ (by simp)]
      simp

theorem getD_replicate {β : Type u} (n i : Nat) (x d : β)
    (h : i < n) : (List.replicate n x).getD i d = x := by
  induction n generalizing i with
  | zero => omega
  | succ n' ih =>
    cases i with
    | zero => rfl
    | succ i' =>
      rw [List.replicate_succ]
      simpa using ih i' (by omega)

theorem getD_length_le {β : Type u} (l : List β) (j : Nat) (d : β)
    (h : l.length ≤ j) : l.getD j d = d := by
  induction l generalizing j with
  | nil => simp [List.getD]
  | cons a t ih =>
    cases j with
    | zero => simp at h
    | succ k => simpa using ih k (by simpa using h)

end VectorModel

namespace VectorModel

/-! ### Claim C2 — the growth policy of `EmplaceBack` -/

namespace VecL

theorem emplaceBack_elems {α : Type u} (v : VecL α) (x : α) :
    (emplaceBack v x).elems = v.elems ++ [x] := by
  unfold emplaceBack
  split <;> rfl

theorem emplaceBack_cap_of_full {α : Type u} (v : VecL α) (x : α)
    (h : v.elems.length = v.cap) :
    (emplaceBack v x).cap = max 1 (v.cap * 2) := by
  unfold emplaceBack
  rw [if_pos h]
  show (if v.elems.length = 0 then 1 else v.cap * 2) = max 1 (v.cap * 2)
  by_cases h0 : v.elems.length = 0
  · rw [if_pos h0]
    omega
  · rw [if_neg h0]
    omega

theorem emplaceBack_cap_of_notfull {α : Type u} (v : VecL α) (x : α)
    (h : v.elems.length ≠ v.cap) : (emplaceBack v x).cap = v.cap := by
  unfold emplaceBack
  rw [if_neg h]

theorem emplaceBack_goodCap {α : Type u} (v : VecL α) (x : α)
    (h : GoodCap v.elems.length v.cap) :
    GoodCap (v.elems.length + 1) (emplaceBack v x).cap := by
  by_cases hfull : v.elems.length = v.cap
  · rw [emplaceBack_cap_of_full v x hfull]
    rcases h with ⟨hk, hc⟩ | ⟨⟨j, hj⟩, hkc, hcc⟩
    · right
      refine ⟨⟨0, by simp [hc]⟩, by omega, by omega⟩
    · right
      have h1 : (1 : Nat) ≤ 2 ^ j := Nat.one_le_two_pow
      refine ⟨⟨j + 1, ?_⟩, by omega, by omega⟩
      rw [hj, pow_succ]
      omega
  · rw [emplaceBack_cap_of_notfull v x hfull]
    rcases h with ⟨hk, hc⟩ | ⟨⟨j, hj⟩, hkc, hcc⟩
    · exact absurd (hk.trans hc.symm) hfull
    · right
      exact ⟨⟨j, hj⟩, by omega, by omega⟩

theorem foldl_emplaceBack_inv {α : Type u} (xs : List α) (v : VecL α)
    (h : GoodCap v.elems.length v.cap) :
    (xs.foldl emplaceBack v).elems.length = v.elems.length + xs.length ∧
    GoodCap (v.elems.length + xs.length) (xs.foldl emplaceBack v).cap := by
  induction xs generalizing v with
  | nil => simpa using h
  | cons y ys ih =>
    have hlen : (emplaceBack v y).elems.length = v.elems.length + 1 := by
      rw [emplaceBack_elems]
      simp
    have h1 : GoodCap (emplaceBack v y).elems.length (emplaceBack v y).cap := by
      rw [hlen]
      exact emplaceBack_goodCap v y h
    have h2 := ih (emplaceBack v y) h1
    rw [hlen] at h2
    simp only [List.foldl_cons, List.length_cons]
    refine ⟨?_, ?_⟩
    · have := h2.1
      omega
    · have harith : v.elems.length + 1 + ys.length = v.elems.length + (ys.length + 1) := by
        omega
      have := h2.2
      rw [harith] at this
      exact this

theorem goodCap_eq_pow_clog (k c : Nat) (hk : 1 ≤ k) (h : GoodCap k c) :
    c = 2 ^ Nat.clog 2 k ∧ k ≤ c ∧ c < 2 * k := by
  rcases h with ⟨h0, _⟩ | ⟨⟨j, hj⟩, hkc, hcc⟩
  · omega
  · subst hj
    have hclog : Nat.clog 2 k ≤ j := (Nat.le_pow_iff_clog_le (by norm_num)).mp hkc
    have hk2 : k ≤ 2 ^ Nat.clog 2 k := Nat.le_pow_clog (by norm_num) k
    have hj2 : j ≤ Nat.clog 2 k := by
      by_contra hlt
      have hstep : 2 ^ (Nat.clog 2 k + 1) ≤ 2 ^ j :=
        Nat.pow_le_pow_right (by norm_num) (by omega)
      have : (2 : Nat) ^ j < 2 ^ j := by
        calc (2 : Nat) ^ j < 2 * k := hcc
          _ ≤ 2 * 2 ^ Nat.clog 2 k := by omega
          _ = 2 ^ (Nat.clog 2 k + 1) := by rw [pow_succ]; ring
          _ ≤ 2 ^ j := hstep
      omega
    have : j = Nat.clog 2 k := Nat.le_antisymm hj2 hclog
    exact ⟨by rw [this], hkc, hcc⟩

end VecL

/-- **C2.** Starting from an empty vector, after `k ≥ 1` consecutive
`EmplaceBack`/`PushBack` appends (no intervening `Reserve`) the capacity is
the smallest power of two that is ≥ `k` — stated both as
`2 ^ Nat.clog 2 k` and by the characterization "a power of two in
`[k, 2 * k)`" — and the size is `k`; moreover a single append performed when
`size_ == data_.Capacity()` grows the capacity to `max 1 (capacity * 2)`. -/
theorem claim_C2_growth {α : Type u} :
    (∀ (v : VecL α) (x : α), v.elems.length = v.cap →
      (VecL.emplaceBack v x).cap = max 1 (v.cap * 2)) ∧
    (∀ xs : List α, xs ≠ [] →
      (xs.foldl VecL.emplaceBack VecL.empty).elems.length = xs.length ∧
      (xs.foldl VecL.emplaceBack VecL.empty).cap = 2 ^ Nat.clog 2 xs.length ∧
      xs.length ≤ (xs.foldl VecL.emplaceBack VecL.empty).cap ∧
      (xs.foldl VecL.emplaceBack VecL.empty).cap < 2 * xs.length) := by
  constructor
  · exact fun v x h => VecL.emplaceBack_cap_of_full v x h
  · intro xs hne
    have h0 : VecL.GoodCap (VecL.empty (α := α)).elems.length (VecL.empty (α := α)).cap :=
      Or.inl ⟨rfl, rfl⟩
    have h := VecL.foldl_emplaceBack_inv xs VecL.empty h0
    have hlen : (VecL.empty (α := α)).elems.length = 0 := rfl
    rw [hlen] at h
    have hk : 1 ≤ xs.length := by
      cases xs with
      | nil => exact absurd rfl hne
      | cons a t => simp
    have hcap := VecL.goodCap_eq_pow_clog xs.length _ hk (by simpa using h.2)
    exact ⟨by simpa using h.1, hcap.1, hcap.2.1, hcap.2.2⟩

/-- Witness for C2: a vector of one element at full capacity 1 doubles to
capacity 2 on append, and three appends from empty give size 3 and
capacity 4 = 2 ^ clog₂ 3, with 3 ≤ 4 < 6. -/
theorem claim_C2_growth_witness :
    ((VecL.mk [9] 1 : VecL Nat).elems.length = (VecL.mk [9] 1 : VecL Nat).cap ∧
      (VecL.emplaceBack (VecL.mk [9] 1 : VecL Nat) 5).cap = max 1 (1 * 2)) ∧
    (([1, 2, 3] : List Nat) ≠ [] ∧
      (([1, 2, 3] : List Nat).foldl VecL.emplaceBack VecL.empty).elems.length = 3 ∧
      (([1, 2, 3] : List Nat).foldl VecL.emplaceBack VecL.empty).cap = 2 ^ Nat.clog 2 3 ∧
      3 ≤ (([1, 2, 3] : List Nat).foldl VecL.emplaceBack VecL.empty).cap ∧
      (([1, 2, 3] : List Nat).foldl VecL.emplaceBack VecL.empty).cap < 2 * 3) :=
  ⟨⟨by decide, claim_C2_growth.1 (VecL.mk [9] 1) 5 (by decide)⟩,
    ⟨by decide, claim_C2_growth.2 [1, 2, 3] (by decide)⟩⟩

end VectorModel

namespace VectorModel

/-! ### Claim C3 — `Emplace` / `Insert` at an arbitrary position -/

namespace VecL

/-- The element effect of the in-place branch of `Emplace` (lines 245-249):
appending a moved copy of the last element, shifting `[p, size - 1)` one
slot back, and assigning the new value at `p` yields exactly the insertion
of `x` at index `p`. -/
theorem emplace_inPlace_elems {α : Type u} (l : List α) (p : Nat) (x : α)
    (hp : p < l.length) :
    (moveBackwardOne (l ++ l.drop (l.length - 1)) p (l.length - 1)).set p x
      = l.take p ++ x :: l.drop p := by
  unfold moveBackwardOne
  have h1 : (l ++ l.drop (l.length - 1)).take (p + 1) = l.take (p + 1) :=
    List.take_append_of_le_length (by omega)
  have h2 : (l ++ l.drop (l.length - 1)).drop p = l.drop p ++ l.drop (l.length - 1) :=
    List.drop_append_of_le_length (by omega)
  have h3 : (l ++ l.drop (l.length - 1)).drop (l.length - 1 + 1) = l.drop (l.length - 1) := by
    have he : l.length - 1 + 1 = l.length := by omega
    rw [he, List.drop_left]
  rw [h1, h2, h3]
  have h4 : (l.drop p ++ l.drop (l.length - 1)).take (l.length - 1 - p)
      = (l.drop p).take (l.length - 1 - p) :=
    List.take_append_of_le_length (by rw [List.length_drop]; omega)
  rw [h4]
  have hlenA : (l.take (p + 1)).length = p + 1 := by
    rw [List.length_take]
    omega
  have hlenAB : (l.take (p + 1) ++ (l.drop p).take (l.length - 1 - p)).length
      = p + 1 + (l.length - 1 - p) := by
    rw [List.length_append, hlenA, List.length_take, List.length_drop]
    omega
  rw [List.set_append, if_pos (by omega), List.set_append, if_pos (by omega)]
  have h5 : (l.take (p + 1)).set p x = l.take p ++ [x] := by
    rw [List.take_succ, List.set_append,
      if_neg (by rw [List.length_take]; omega)]
    have hpp : p - (l.take p).length = 0 := by
      rw [List.length_take]
      omega
    rw [hpp]
    have hsome : l[p]? = some l[p] := List.getElem?_eq_getElem hp
    rw [hsome]
    rfl
  rw [h5]
  have hBC : (l.drop p).take (l.length - 1 - p) ++ l.drop (l.length - 1) = l.drop p := by
    have hd : (l.drop p).drop (l.length - 1 - p) = l.drop (l.length - 1) := by
      rw [List.drop_drop]
      congr 1
      omega
    rw [← hd, List.take_append_drop]
  simp only [List.append_assoc]
  rw [hBC]
  simp

theorem emplace_elems_ret {α : Type u} (v : VecL α) (p : Nat) (x : α)
    (hp : p ≤ v.elems.length) :
    (emplace v p x).1.elems = v.elems.take p ++ x :: v.elems.drop p ∧
    (emplace v p x).2 = p := by
  unfold emplace
  by_cases hend : p = v.elems.length
  · rw [if_pos hend]
    constructor
    · show (emplaceBack v x).elems = _
      rw [emplaceBack_elems, hend]
      simp
    · show (emplaceBack v x).elems.length - 1 = p
      rw [emplaceBack_elems]
      simp [hend]
  · rw [if_neg hend]
    have hplt : p < v.elems.length := by omega
    by_cases hcap : v.elems.length < v.cap
    · rw [if_pos hcap]
      exact ⟨emplace_inPlace_elems v.elems p x hplt, rfl⟩
    · rw [if_neg hcap]
      exact ⟨rfl, rfl⟩

/-- Reading the insertion shape `take p ++ x :: drop p` slot by slot. -/
theorem insertShape_getD {α : Type u} (l : List α) (p : Nat) (x d : α)
    (hp : p ≤ l.length) :
    ((l.take p ++ x :: l.drop p).getD p d = x) ∧
    (∀ i, i < p → (l.take p ++ x :: l.drop p).getD i d = l.getD i d) ∧
    (∀ i, p ≤ i → i < l.length →
      (l.take p ++ x :: l.drop p).getD (i + 1) d = l.getD i d) := by
  have hlt : (l.take p).length = p := by
    rw [List.length_take]
    omega
  refine ⟨?_, ?_, ?_⟩
  · rw [getD_append_ge _ _ _ _ (by omega)]
    rw [hlt]
    simp
  · intro i hi
    rw [getD_append_lt _ _ _ _ (by omega)]
    exact getD_take l p i d hi
  · intro i hpi hil
    rw [getD_append_ge _ _ _ _ (by omega)]
    have h1 : i + 1 - (l.take p).length = (i - p) + 1 := by omega
    rw [h1]
    show (l.drop p).getD (i - p) d = l.getD i d
    rw [getD_drop]
    congr 1
    omega

end VecL

/-- **C3.** For every vector of size `s` and every position `p ≤ s`,
`Emplace(begin() + p, v)` (and hence `Insert`) yields size `s + 1`, puts the
new value at index `p`, leaves the elements before `p` unchanged, moves the
elements previously at `[p, s)` to `[p+1, s+1)` in the same relative order,
and returns an iterator at index `p` — the newly inserted element. -/
theorem claim_C3_insert {α : Type u} (v : VecL α) (p : Nat) (x : α)
    (hp : p ≤ v.elems.length) :
    (VecL.emplace v p x).1.elems.length = v.elems.length + 1 ∧
    (VecL.emplace v p x).2 = p ∧
    VecL.insert v p x = VecL.emplace v p x ∧
    (∀ d : α,
      (VecL.emplace v p x).1.elems.getD p d = x ∧
      (∀ i, i < p → (VecL.emplace v p x).1.elems.getD i d = v.elems.getD i d) ∧
      (∀ i, p ≤ i → i < v.elems.length →
        (VecL.emplace v p x).1.elems.getD (i + 1) d = v.elems.getD i d)) := by
  obtain ⟨helems, hret⟩ := VecL.emplace_elems_ret v p x hp
  refine ⟨?_, hret, rfl, ?_⟩
  · rw [helems]
    simp only [List.length_append, List.length_cons, List.length_take, List.length_drop]
    omega
  · intro d
    rw [helems]
    exact VecL.insertShape_getD v.elems p x d hp

/-- Witness for C3: inserting 9 at position 1 of `[1, 2, 3]` (capacity 4, so
the in-place shifting branch runs): size becomes 4, the iterator points at
index 1, and slot 1 holds 9. -/
theorem claim_C3_insert_witness :
    1 ≤ (VecL.mk [1, 2, 3] 4 : VecL Nat).elems.length ∧
    (VecL.emplace (VecL.mk [1, 2, 3] 4 : VecL Nat) 1 9).1.elems.length
      = (VecL.mk [1, 2, 3] 4 : VecL Nat).elems.length + 1 ∧
    (VecL.emplace (VecL.mk [1, 2, 3] 4 : VecL Nat) 1 9).1.elems.getD 1 0 = 9 :=
  ⟨by decide,
    (claim_C3_insert (VecL.mk [1, 2, 3] 4) 1 9 (by decide)).1,
    ((claim_C3_insert (VecL.mk [1, 2, 3] 4) 1 9 (by decide)).2.2.2 0).1⟩

end VectorModel

namespace VectorModel

/-! ### Claims C6, C7, C9 — move construction/assignment and self copy-assignment -/

/-- Counterexample for **C6** as stated: the claim says that after a move the
source keeps "the capacity/ownership it held before".  Move-constructing from
a vector holding `[5]` in a block of capacity 2 leaves the source with
capacity 0 (the constructor `Vector(Vector&&)` swaps with a
default-constructed vector owning nothing), not 2. -/
theorem claim_C6_counterexample :
    ¬ ((VecL.moveCtor (VecL.mk [5] 2 : VecL Nat)).1.2.cap = 2) := by
  decide

/-- **C6 (amended).** Move construction and move assignment never fail,
construct and destroy no elements and free no block (empty event log); the
destination afterwards holds exactly the source's prior elements in prior
order with the source's prior capacity, and the source is left with size 0
and capacity 0, owning nothing. -/
theorem claim_C6_move {α : Type u} (other tgt rhs : VecL α) :
    VecL.moveCtor other = ((⟨other.elems, other.cap⟩, ⟨[], 0⟩), []) ∧
    VecL.moveAssign tgt rhs = ((⟨rhs.elems, rhs.cap⟩, ⟨[], 0⟩), []) :=
  ⟨rfl, rfl⟩

/-- **C7 (code bug).** The claim — following §4.2 of the spec ("old Buffer
destroyed together with its elements when overwritten") — says move
assignment destroys the target's old elements and releases its old block.
The code does neither: `RawMemory::operator=(RawMemory&&)` (lines 22-28)
overwrites `buffer_` without calling `Deallocate`, and
`Vector::operator=(Vector&&)` (lines 183-187) never runs `std::destroy_n` on
the old elements.  Evaluated at a target that holds one live element (5) in
a block of capacity 1: the event log is empty — no destructor call, no
deallocation — although the claim requires one `destroy` and the release of
the old block.  (Stated both at the concrete failing input and for all
inputs.) -/
theorem claim_C7_moveAssign_leaks :
    ((VecL.moveAssign (VecL.mk [5] 1 : VecL Nat) (VecL.mk [7] 1)).2 = [] ∧
      (VecL.mk [5] 1 : VecL Nat).elems.length = 1) ∧
    (∀ (tgt rhs : VecL Nat), (VecL.moveAssign tgt rhs).2 = []) :=
  ⟨⟨rfl, rfl⟩, fun tgt rhs => rfl⟩

/-- **C9.** Copy-assigning a vector to itself takes the early-return branch
of the `this == &rhs` test (line 164): the vector is returned with elements,
size and capacity unchanged, and the event log is empty — no element copy,
construction or destruction is performed. -/
theorem claim_C9_selfAssign {α : Type u} (a : VecL α) :
    VecL.copyAssign a a true = (a, []) :=
  rfl

end VectorModel

namespace VectorModel

/-! ### Slot-level facts about the shift primitives -/

theorem moveBackwardOne_length {β : Type u} (l : List β) (first last : Nat)
    (hfl : first ≤ last) (hln : last < l.length) :
    (moveBackwardOne l first last).length = l.length := by
  unfold moveBackwardOne
  rw [List.length_append, List.length_append, List.length_take, List.length_take,
    List.length_drop, List.length_drop]
  omega

theorem moveBackwardOne_getD_gt {β : Type u} (l : List β) (first last j : Nat) (d : β)
    (hfl : first ≤ last) (hln : last < l.length) (hj : last < j) :
    (moveBackwardOne l first last).getD j d = l.getD j d := by
  unfold moveBackwardOne
  have hA : (l.take (first + 1)).length = first + 1 := by
    rw [List.length_take]
    omega
  have hB : ((l.drop first).take (last - first)).length = last - first := by
    rw [List.length_take, List.length_drop]
    omega
  have hAB : (l.take (first + 1) ++ (l.drop first).take (last - first)).length = last + 1 := by
    rw [List.length_append, hA, hB]
    omega
  rw [getD_append_ge _ _ _ _ (by omega), getD_drop]
  congr 1
  omega

theorem moveLeftOne_length {β : Type u} (l : List β) (first last : Nat)
    (hf : 1 ≤ first) (hfl : first ≤ last) (hln : last ≤ l.length) :
    (moveLeftOne l first last).length = l.length := by
  unfold moveLeftOne
  rw [List.length_append, List.length_append, List.length_take, List.length_take,
    List.length_drop, List.length_drop]
  omega

theorem moveLeftOne_getD_lt {β : Type u} (l : List β) (first last j : Nat) (d : β)
    (hj : j < first - 1) (hfl : first ≤ last) (hln : last ≤ l.length) :
    (moveLeftOne l first last).getD j d = l.getD j d := by
  unfold moveLeftOne
  have hA : (l.take (first - 1)).length = first - 1 := by
    rw [List.length_take]
    omega
  rw [getD_append_lt _ _ _ _ (by rw [List.length_append, hA]; omega)]
  rw [getD_append_lt _ _ _ _ (by omega)]
  exact getD_take l (first - 1) j d hj

theorem moveLeftOne_getD_mid {β : Type u} (l : List β) (first last j : Nat) (d : β)
    (hge : first - 1 ≤ j) (hj : j < last - 1)
    (hf : 1 ≤ first) (hfl : first ≤ last) (hln : last ≤ l.length) :
    (moveLeftOne l first last).getD j d = l.getD (j + 1) d := by
  unfold moveLeftOne
  have hA : (l.take (first - 1)).length = first - 1 := by
    rw [List.length_take]
    omega
  have hB : ((l.drop first).take (last - first)).length = last - first := by
    rw [List.length_take, List.length_drop]
    omega
  rw [getD_append_lt _ _ _ _ (by rw [List.length_append, hA, hB]; omega)]
  rw [getD_append_ge _ _ _ _ (by omega)]
  rw [getD_take _ _ _ _ (by omega)]
  rw [getD_drop]
  congr 1
  omega

theorem moveLeftOne_getD_ge {β : Type u} (l : List β) (first last j : Nat) (d : β)
    (hj : last - 1 ≤ j) (hf : 1 ≤ first) (hfl : first ≤ last) (hln : last ≤ l.length) :
    (moveLeftOne l first last).getD j d = l.getD j d := by
  unfold moveLeftOne
  have hA : (l.take (first - 1)).length = first - 1 := by
    rw [List.length_take]
    omega
  have hB : ((l.drop first).take (last - first)).length = last - first := by
    rw [List.length_take, List.length_drop]
    omega
  have hAB : (l.take (first - 1) ++ (l.drop first).take (last - first)).length = last - 1 := by
    rw [List.length_append, hA, hB]
    omega
  rw [getD_append_ge _ _ _ _ (by omega), getD_drop]
  congr 1
  omega

end VectorModel

namespace VectorModel

/-! ### Claim C1 — strong exception guarantee of the growing `EmplaceBack` -/

/-- **C1.** When an append triggers growth (`size_ == data_.Capacity()`) and
fails — because the new element's own construction throws, or because one of
the copies made by the duplication transfer policy throws — the failure
propagates to the caller as an error, and the vector's observable state at
the moment the exception leaves `EmplaceBack` is exactly the state before
the call: same buffer contents (hence same elements and capacity) and same
size.  The first conjunct says every propagated failure leaves the state
unchanged; the last two say that each of the two failure points does
propagate. -/
theorem claim_C1_emplaceBack_strong {σ : Type u} {α : Type v}
    (c : Ctors σ α) (v : VecB α) (s : σ)
    (hgrow : v.size = v.buf.length) :
    (∀ w, emplaceBackF c v s = Except.error w →
      w = v ∧ w.buf = v.buf ∧ w.size = v.size) ∧
    (c.mkNew s = none → emplaceBackF c v s = Except.error v) ∧
    (∀ x s1, c.mkNew s = some (x, s1) → c.nothrowMove = false →
      uninitCopyN c.copy (v.buf.take v.size) s1 = none →
      emplaceBackF c v s = Except.error v) := by
  refine ⟨?_, ?_, ?_⟩
  · intro w herr
    cases hmk : c.mkNew s with
    | none =>
      unfold emplaceBackF at herr
      rw [if_pos hgrow] at herr
      simp only [hmk] at herr
      injection herr with hw
      subst hw
      exact ⟨rfl, rfl, rfl⟩
    | some xs1 =>
      obtain ⟨x, s1⟩ := xs1
      cases hcm : copyOrMove c (v.buf.take v.size) s1 with
      | none =>
        unfold emplaceBackF at herr
        rw [if_pos hgrow] at herr
        simp only [hmk, hcm] at herr
        injection herr with hw
        subst hw
        exact ⟨rfl, rfl, rfl⟩
      | some ys2 =>
        obtain ⟨ys, s2⟩ := ys2
        unfold emplaceBackF at herr
        rw [if_pos hgrow] at herr
        simp only [hmk, hcm] at herr
        exact absurd herr (by simp)
  · intro hmk
    unfold emplaceBackF
    rw [if_pos hgrow]
    simp only [hmk]
  · intro x s1 hmk hmv hcp
    unfold emplaceBackF
    rw [if_pos hgrow]
    simp only [hmk]
    unfold copyOrMove
    rw [hmv]
    simp only [Bool.false_eq_true, if_false, hcp]

/-- Witness for C1, the spec's exception-injection scenario: a full vector
of three live elements, element type throwing on its 4th construction.
With the counter at 3, the growth append fails at the new element's own
construction (4th); with a type throwing on the 5th construction it fails
while duplicating the first existing element; in both runs the error state
is the original vector. -/
theorem claim_C1_emplaceBack_strong_witness :
    vFull3.size = vFull3.buf.length ∧
    emplaceBackF (throwOnNth 4) vFull3 3 = Except.error vFull3 ∧
    emplaceBackF (throwOnNth 5) vFull3 3 = Except.error vFull3 ∧
    (vFull3 = vFull3 ∧ vFull3.buf = vFull3.buf ∧ vFull3.size = vFull3.size) :=
  ⟨rfl,
    (claim_C1_emplaceBack_strong (throwOnNth 4) vFull3 3 rfl).2.1 rfl,
    (claim_C1_emplaceBack_strong (throwOnNth 5) vFull3 3 rfl).2.2 9 4 rfl rfl rfl,
    (claim_C1_emplaceBack_strong (throwOnNth 4) vFull3 3 rfl).1 vFull3
      ((claim_C1_emplaceBack_strong (throwOnNth 4) vFull3 3 rfl).2.1 rfl)⟩

end VectorModel

namespace VectorModel

/-! ### Claim C8 — the in-place `Emplace` path is not strongly exception safe -/

/-- **C8.** On the in-place path of `Emplace` at a non-end position (taken
when `size_ < data_.Capacity()`), if the construction of the new value
(`T(std::forward<Types>(values)...)` on line 248) throws after the shift has
occurred, the operation does not unwind: the error state differs from the
pre-call state, and it is inconsistent — slot `size_` holds a live object
(the moved last element placed there on line 246) even though it lies
outside `[0, size_)`, so the vector invariant `WF` is violated. -/
theorem claim_C8_emplace_inPlace_weakSafety {σ : Type u} {α : Type v}
    (c : Ctors σ α) (v : VecB α) (p : Nat) (s : σ) (w : VecB α)
    (hwf : v.WF) (hp : p < v.size) (hcap : v.size < v.buf.length)
    (hthrow : c.mkNew s = none)
    (herr : emplaceF c v p s = Except.error w) :
    w ≠ v ∧ ¬ w.WF ∧ (w.buf.getD v.size none).isSome ∧ w.size = v.size := by
  have hpn : ¬ p = v.size := by omega
  have hs1 : 1 ≤ v.size := by omega
  unfold emplaceF at herr
  rw [if_neg hpn, if_pos hcap] at herr
  simp only [hthrow] at herr
  injection herr with hw
  subst hw
  -- facts about the original vector
  have hlast_live : (v.buf.getD (v.size - 1) none).isSome :=
    (hwf.2 (v.size - 1) (by omega)).mpr (by omega)
  have hslot_raw : v.buf.getD v.size none = none := by
    have h := hwf.2 v.size hcap
    have hns : ¬ (v.buf.getD v.size none).isSome := by
      rw [h]
      omega
    exact Option.not_isSome_iff_eq_none.mp hns
  -- facts about the shifted buffer
  have hb1len : (v.buf.set v.size (v.buf.getD (v.size - 1) none)).length = v.buf.length :=
    List.length_set _ _ _
  have hb1sz : (v.buf.set v.size (v.buf.getD (v.size - 1) none)).getD v.size none
      = v.buf.getD (v.size - 1) none :=
    getD_set_eq _ _ _ _ hcap
  have hb2sz :
      (moveBackwardOne (v.buf.set v.size (v.buf.getD (v.size - 1) none)) p
        (v.size - 1)).getD v.size none
      = v.buf.getD (v.size - 1) none := by
    rw [moveBackwardOne_getD_gt _ p (v.size - 1) v.size none (by omega)
      (by rw [hb1len]; omega) (by omega)]
    exact hb1sz
  have hb2len :
      (moveBackwardOne (v.buf.set v.size (v.buf.getD (v.size - 1) none)) p
        (v.size - 1)).length = v.buf.length := by
    rw [moveBackwardOne_length _ p (v.size - 1) (by omega) (by rw [hb1len]; omega)]
    exact hb1len
  have hlive : ((moveBackwardOne (v.buf.set v.size (v.buf.getD (v.size - 1) none)) p
      (v.size - 1)).getD v.size none).isSome := by
    rw [hb2sz]
    exact hlast_live
  refine ⟨?_, ?_, hlive, rfl⟩
  · intro heq
    have hbe : moveBackwardOne (v.buf.set v.size (v.buf.getD (v.size - 1) none)) p
        (v.size - 1) = v.buf := congrArg VecB.buf heq
    rw [hbe, hslot_raw] at hlive
    simp at hlive
  · intro hwfw
    have h2 := hwfw.2 v.size (by rw [hb2len]; exact hcap)
    rw [h2] at hlive
    simp at hlive

/-- Witness for C8: vector `[10, 20]` in a block of capacity 3, inserting at
position 0 with a from-arguments constructor that throws.  The error state
is `[10, 10, 20]` with size still 2: the buffer has been shifted (slot 1
duplicates slot 0's element), slot 2 holds a live object outside `[0, 2)`,
and the state differs from the original and violates the invariant. -/
theorem claim_C8_emplace_inPlace_weakSafety_witness :
    vGap3.WF ∧ 0 < vGap3.size ∧ vGap3.size < vGap3.buf.length ∧
    throwOnNew.mkNew 0 = none ∧
    emplaceF throwOnNew vGap3 0 0
      = Except.error (VecB.mk [some 10, some 10, some 20] 2) ∧
    (VecB.mk [some 10, some 10, some 20] 2 : VecB Nat) ≠ vGap3 ∧
    ¬ (VecB.mk [some 10, some 10, some 20] 2 : VecB Nat).WF :=
  ⟨by decide, by decide, by decide, rfl, rfl,
    (claim_C8_emplace_inPlace_weakSafety throwOnNew vGap3 0 0
      (VecB.mk [some 10, some 10, some 20] 2)
      (by decide) (by decide) (by decide) rfl rfl).1,
    (claim_C8_emplace_inPlace_weakSafety throwOnNew vGap3 0 0
      (VecB.mk [some 10, some 10, some 20] 2)
      (by decide) (by decide) (by decide) rfl rfl).2.1⟩

end VectorModel

namespace VectorModel

/-! ### Claims C4 and C10 — `Erase` -/

/-- **C4.** For every well-formed vector of size `s ≥ 1` and position
`p < s`, `Erase(begin() + p)` decreases the size to `s - 1`, keeps the
capacity, leaves the slots before `p` unchanged, moves the elements
previously at `[p + 1, s)` to `[p, s - 1)` in the same relative order, and
destroys the now-vacated slot `s - 1` (it becomes raw). -/
theorem claim_C4_erase {α : Type u} (v : VecB α) (p : Nat)
    (hwf : v.WF) (hp : p < v.size) :
    (eraseB v p).1.size = v.size - 1 ∧
    (eraseB v p).1.buf.length = v.buf.length ∧
    (∀ i, i < p → (eraseB v p).1.buf.getD i none = v.buf.getD i none) ∧
    (∀ i, p ≤ i → i < v.size - 1 →
      (eraseB v p).1.buf.getD i none = v.buf.getD (i + 1) none) ∧
    (eraseB v p).1.buf.getD (v.size - 1) none = none := by
  have hsl : v.size ≤ v.buf.length := hwf.1
  have hb1len : (moveLeftOne v.buf (p + 1) v.size).length = v.buf.length :=
    moveLeftOne_length v.buf (p + 1) v.size (by omega) (by omega) hsl
  refine ⟨rfl, ?_, ?_, ?_, ?_⟩
  · show ((moveLeftOne v.buf (p + 1) v.size).set (v.size - 1) none).length = v.buf.length
    rw [List.length_set]
    exact hb1len
  · intro i hi
    show ((moveLeftOne v.buf (p + 1) v.size).set (v.size - 1) none).getD i none
      = v.buf.getD i none
    rw [getD_set_ne _ _ _ _ _ (by omega)]
    exact moveLeftOne_getD_lt v.buf (p + 1) v.size i none (by omega) (by omega) hsl
  · intro i hpi hi
    show ((moveLeftOne v.buf (p + 1) v.size).set (v.size - 1) none).getD i none
      = v.buf.getD (i + 1) none
    rw [getD_set_ne _ _ _ _ _ (by omega)]
    exact moveLeftOne_getD_mid v.buf (p + 1) v.size i none (by omega) (by omega)
      (by omega) (by omega) hsl
  · show ((moveLeftOne v.buf (p + 1) v.size).set (v.size - 1) none).getD (v.size - 1) none
      = none
    rw [getD_set_eq _ _ _ _ (by rw [hb1len]; omega)]

/-- Witness for C4: erasing position 1 of the well-formed vector
`[1, 2, 3]` (capacity 3) gives size 2, keeps capacity 3, and leaves slot 2
raw. -/
theorem claim_C4_erase_witness :
    vFull3.WF ∧ 1 < vFull3.size ∧
    (eraseB vFull3 1).1.size = vFull3.size - 1 ∧
    (eraseB vFull3 1).1.buf.length = vFull3.buf.length ∧
    (eraseB vFull3 1).1.buf.getD (vFull3.size - 1) none = none :=
  ⟨by decide, by decide,
    (claim_C4_erase vFull3 1 (by decide) (by decide)).1,
    (claim_C4_erase vFull3 1 (by decide) (by decide)).2.1,
    (claim_C4_erase vFull3 1 (by decide) (by decide)).2.2.2.2⟩

/-- **C10.** `Erase(begin() + p)` on a well-formed vector of size `s ≥ 1`
with `p < s` returns the iterator `begin() + p`, i.e. index `p` of the
updated vector; when `p + 1 < s` that slot holds the element that previously
followed the erased one, and when the last element was erased (`p + 1 = s`)
the returned index equals the new size, i.e. the iterator is `end()`. -/
theorem claim_C10_erase_ret {α : Type u} (v : VecB α) (p : Nat)
    (hwf : v.WF) (hp : p < v.size) :
    (eraseB v p).2 = p ∧
    (p + 1 < v.size → (eraseB v p).1.buf.getD p none = v.buf.getD (p + 1) none) ∧
    (p + 1 = v.size → (eraseB v p).2 = (eraseB v p).1.size) := by
  refine ⟨rfl, ?_, ?_⟩
  · intro hlt
    exact (claim_C4_erase v p hwf hp).2.2.2.1 p (by omega) (by omega)
  · intro heq
    show p = v.size - 1
    omega

/-- Witness for C10: erasing position 1 of `[1, 2, 3]` returns index 1,
which holds the element 3 that previously followed; erasing position 2 (the
last element) returns index 2 = new size, i.e. `end()`. -/
theorem claim_C10_erase_ret_witness :
    vFull3.WF ∧ 1 < vFull3.size ∧ 2 < vFull3.size ∧
    (eraseB vFull3 1).2 = 1 ∧
    (eraseB vFull3 1).1.buf.getD 1 none = vFull3.buf.getD 2 none ∧
    (eraseB vFull3 2).2 = (eraseB vFull3 2).1.size :=
  ⟨by decide, by decide, by decide,
    (claim_C10_erase_ret vFull3 1 (by decide) (by decide)).1,
    (claim_C10_erase_ret vFull3 1 (by decide) (by decide)).2.1 (by decide),
    (claim_C10_erase_ret vFull3 2 (by decide) (by decide)).2.2 (by decide)⟩

end VectorModel

namespace VectorModel

/-! ### Frame lemmas: every mutation writes only its own block or a fresh one -/

theorem bufAt_writeBuf_ne {α : Type u} (h : Heap α) (a b : Nat)
    (bl : List (Option α)) (hne : a ≠ b) :
    (h.writeBuf b bl).bufAt a = h.bufAt a :=
  getD_set_ne _ _ _ _ _ (fun hc => hne hc.symm)

theorem bufAt_writeBuf_eq {α : Type u} (h : Heap α) (a : Nat)
    (bl : List (Option α)) (ha : a < h.bufs.length) :
    (h.writeBuf a bl).bufAt a = bl :=
  getD_set_eq _ _ _ _ ha

theorem bufAt_alloc_lt {α : Type u} (h : Heap α) (n a : Nat)
    (ha : a < h.bufs.length) :
    (h.alloc n).1.bufAt a = h.bufAt a :=
  getD_append_lt _ _ _ _ ha

theorem writeBuf_bufsLength {α : Type u} (h : Heap α) (a : Nat)
    (bl : List (Option α)) :
    (h.writeBuf a bl).bufs.length = h.bufs.length :=
  List.length_set _ _ _

theorem alloc_bufsLength {α : Type u} (h : Heap α) (n : Nat) :
    (h.alloc n).1.bufs.length = h.bufs.length + 1 := by
  simp [Heap.alloc]

theorem alloc_addr {α : Type u} (h : Heap α) (n : Nat) :
    (h.alloc n).2 = h.bufs.length :=
  rfl

/-- The shape shared by every reallocating branch: allocate a fresh block,
fill it, destroy the old elements in the own block.  Addresses other than
the vector's own block and the fresh one are untouched. -/
theorem frame_growWrite {α : Type u} (h : Heap α) (v : HVec) (a n : Nat)
    (nb bl : List (Option α)) (ha : a < h.bufs.length) (hne : a ≠ v.addr) :
    ((((h.alloc n).1.writeBuf (h.alloc n).2 nb).writeBuf v.addr bl).bufAt a
        = h.bufAt a) ∧
    a < (((h.alloc n).1.writeBuf (h.alloc n).2 nb).writeBuf v.addr bl).bufs.length := by
  constructor
  · rw [bufAt_writeBuf_ne _ _ _ _ hne,
      bufAt_writeBuf_ne _ _ _ _ (by rw [alloc_addr]; omega),
      bufAt_alloc_lt _ _ _ ha]
  · rw [writeBuf_bufsLength, writeBuf_bufsLength, alloc_bufsLength]
    omega

theorem pushBackH_frame {α : Type u} (h : Heap α) (v : HVec) (x : α) (a : Nat)
    (ha : a < h.bufs.length) (hne : a ≠ v.addr) :
    (pushBackH h v x).1.bufAt a = h.bufAt a ∧
    a < (pushBackH h v x).1.bufs.length ∧
    (pushBackH h v x).2.addr ≠ a := by
  unfold pushBackH
  by_cases hc : v.size = capH h v
  · rw [if_pos hc]
    obtain ⟨h1, h2⟩ := frame_growWrite h v a (if v.size = 0 then 1 else capH h v * 2)
      (copiedSlots h v.addr v.size ++ some x ::
        List.replicate ((if v.size = 0 then 1 else capH h v * 2) - (v.size + 1)) none)
      (destroySlots (h.bufAt v.addr) v.size) ha hne
    exact ⟨h1, h2, by intro hEq; simp [Heap.alloc] at hEq; omega⟩
  · rw [if_neg hc]
    exact ⟨bufAt_writeBuf_ne _ _ _ _ hne, by rw [writeBuf_bufsLength]; omega, Ne.symm hne⟩

theorem popBackH_frame {α : Type u} (h : Heap α) (v : HVec) (a : Nat)
    (ha : a < h.bufs.length) (hne : a ≠ v.addr) :
    (popBackH h v).1.bufAt a = h.bufAt a ∧
    a < (popBackH h v).1.bufs.length ∧
    (popBackH h v).2.addr ≠ a := by
  unfold popBackH
  exact ⟨bufAt_writeBuf_ne _ _ _ _ hne, by rw [writeBuf_bufsLength]; omega, Ne.symm hne⟩

theorem reserveH_frame {α : Type u} (h : Heap α) (v : HVec) (n : Nat) (a : Nat)
    (ha : a < h.bufs.length) (hne : a ≠ v.addr) :
    (reserveH h v n).1.bufAt a = h.bufAt a ∧
    a < (reserveH h v n).1.bufs.length ∧
    (reserveH h v n).2.addr ≠ a := by
  unfold reserveH
  by_cases hc : n ≤ capH h v
  · rw [if_pos hc]
    exact ⟨rfl, ha, Ne.symm hne⟩
  · rw [if_neg hc]
    obtain ⟨h1, h2⟩ := frame_growWrite h v a n
      (copiedSlots h v.addr v.size ++ List.replicate (n - v.size) none)
      (destroySlots (h.bufAt v.addr) v.size) ha hne
    exact ⟨h1, h2, by intro hEq; simp [Heap.alloc] at hEq; omega⟩

theorem resizeH_frame {α : Type u} (h : Heap α) (v : HVec) (n : Nat) (d : α) (a : Nat)
    (ha : a < h.bufs.length) (hne : a ≠ v.addr) :
    (resizeH h v n d).1.bufAt a = h.bufAt a ∧
    a < (resizeH h v n d).1.bufs.length ∧
    (resizeH h v n d).2.addr ≠ a := by
  unfold resizeH
  by_cases hc : n < v.size
  · rw [if_pos hc]
    exact ⟨bufAt_writeBuf_ne _ _ _ _ hne, by rw [writeBuf_bufsLength]; omega, Ne.symm hne⟩
  · rw [if_neg hc]
    obtain ⟨h1, h2, h3⟩ := reserveH_frame h v n a ha hne
    refine ⟨?_, ?_, ?_⟩
    · rw [bufAt_writeBuf_ne _ _ _ _ (Ne.symm h3)]
      exact h1
    · rw [writeBuf_bufsLength]
      omega
    · exact h3

theorem emplaceH_frame {α : Type u} (h : Heap α) (v : HVec) (p : Nat) (x : α) (a : Nat)
    (ha : a < h.bufs.length) (hne : a ≠ v.addr) :
    (emplaceH h v p x).1.bufAt a = h.bufAt a ∧
    a < (emplaceH h v p x).1.bufs.length ∧
    (emplaceH h v p x).2.addr ≠ a := by
  unfold emplaceH
  by_cases hp : p = v.size
  · rw [if_pos hp]
    exact pushBackH_frame h v x a ha hne
  · rw [if_neg hp]
    by_cases hc : v.size < capH h v
    · rw [if_pos hc]
      exact ⟨bufAt_writeBuf_ne _ _ _ _ hne, by rw [writeBuf_bufsLength]; omega, Ne.symm hne⟩
    · rw [if_neg hc]
      obtain ⟨h1, h2⟩ := frame_growWrite h v a (if v.size = 0 then 1 else capH h v * 2)
        (copiedSlots h v.addr p ++ some x ::
          (((h.bufAt v.addr).drop p).take (v.size - p) ++
            List.replicate ((if v.size = 0 then 1 else capH h v * 2) - (v.size + 1)) none))
        (destroySlots (h.bufAt v.addr) v.size) ha hne
      exact ⟨h1, h2, by intro hEq; simp [Heap.alloc] at hEq; omega⟩

theorem eraseH_frame {α : Type u} (h : Heap α) (v : HVec) (p : Nat) (a : Nat)
    (ha : a < h.bufs.length) (hne : a ≠ v.addr) :
    (eraseH h v p).1.bufAt a = h.bufAt a ∧
    a < (eraseH h v p).1.bufs.length ∧
    (eraseH h v p).2.addr ≠ a := by
  unfold eraseH
  exact ⟨bufAt_writeBuf_ne _ _ _ _ hne, by rw [writeBuf_bufsLength]; omega, Ne.symm hne⟩

theorem applyMut_frame {α : Type u} (m : Mut α) (h : Heap α) (v : HVec) (a : Nat)
    (ha : a < h.bufs.length) (hne : a ≠ v.addr) :
    (applyMut m h v).1.bufAt a = h.bufAt a ∧
    a < (applyMut m h v).1.bufs.length ∧
    (applyMut m h v).2.addr ≠ a := by
  cases m with
  | push x => exact pushBackH_frame h v x a ha hne
  | pop => exact popBackH_frame h v a ha hne
  | reserveCall n => exact reserveH_frame h v n a ha hne
  | resizeCall n d => exact resizeH_frame h v n d a ha hne
  | emplaceAt p x => exact emplaceH_frame h v p x a ha hne
  | eraseAt p => exact eraseH_frame h v p a ha hne

/-- Iterating any sequence of mutations of a vector never touches a block
at a different address. -/
theorem applyMuts_frame {α : Type u} (ms : List (Mut α)) (h : Heap α) (v : HVec) (a : Nat)
    (ha : a < h.bufs.length) (hne : a ≠ v.addr) :
    (applyMuts ms h v).1.bufAt a = h.bufAt a ∧
    a < (applyMuts ms h v).1.bufs.length ∧
    (applyMuts ms h v).2.addr ≠ a := by
  induction ms generalizing h v with
  | nil => exact ⟨rfl, ha, Ne.symm hne⟩
  | cons m ms ih =>
    obtain ⟨h1, h2, h3⟩ := applyMut_frame m h v a ha hne
    obtain ⟨g1, g2, g3⟩ := ih (applyMut m h v).1 (applyMut m h v).2 h2 (Ne.symm h3)
    exact ⟨g1.trans h1, g2, g3⟩

end VectorModel

namespace VectorModel

/-! ### Claim C5 — duplication yields an equal, independent vector -/

theorem getD_copied_append {α : Type u} (h : Heap α) (a k i : Nat)
    (rest : List (Option α)) (hi : i < k) :
    (copiedSlots h a k ++ rest).getD i none = h.slot a i := by
  rw [getD_append_lt _ _ _ _ (by simp [copiedSlots]; omega)]
  exact getD_map_range _ _ _ _ hi

theorem getD_setRange_lt {α : Type u} (b : List (Option α)) (i j i0 : Nat)
    (o : Option α) (h0 : i0 < i) (hib : i ≤ b.length) :
    (setRange b i j o).getD i0 none = b.getD i0 none := by
  unfold setRange
  rw [getD_append_lt _ _ _ _ (by rw [List.length_append, List.length_take]; omega)]
  rw [getD_append_lt _ _ _ _ (by rw [List.length_take]; omega)]
  exact getD_take b i i0 none h0

/-- What `Vector(const Vector&)` does: the duplicate has the source's size,
capacity equal to that size, element-wise equal live slots — and it lives at
a fresh address, the source's block being untouched. -/
theorem copyCtorH_spec {α : Type u} (h : Heap α) (src : HVec)
    (ha : src.addr < h.bufs.length) :
    (copyCtorH h src).2.size = src.size ∧
    capH (copyCtorH h src).1 (copyCtorH h src).2 = src.size ∧
    (∀ i, i < src.size →
      Heap.slot (copyCtorH h src).1 (copyCtorH h src).2.addr i = h.slot src.addr i) ∧
    (copyCtorH h src).1.bufAt src.addr = h.bufAt src.addr ∧
    src.addr < (copyCtorH h src).1.bufs.length ∧
    (copyCtorH h src).2.addr ≠ src.addr := by
  have hlen1 : (h.alloc src.size).1.bufs.length = h.bufs.length + 1 :=
    alloc_bufsLength h src.size
  have haddr : (h.alloc src.size).2 = h.bufs.length := rfl
  unfold copyCtorH
  refine ⟨rfl, ?_, ?_, ?_, ?_, ?_⟩
  · show (((h.alloc src.size).1.writeBuf (h.alloc src.size).2
        (copiedSlots h src.addr src.size)).bufAt (h.alloc src.size).2).length = src.size
    rw [bufAt_writeBuf_eq _ _ _ (by omega)]
    simp [copiedSlots]
  · intro i hi
    show (((h.alloc src.size).1.writeBuf (h.alloc src.size).2
        (copiedSlots h src.addr src.size)).bufAt (h.alloc src.size).2).getD i none
      = h.slot src.addr i
    rw [bufAt_writeBuf_eq _ _ _ (by omega)]
    exact getD_map_range _ _ _ _ hi
  · show (((h.alloc src.size).1.writeBuf (h.alloc src.size).2
        (copiedSlots h src.addr src.size)).bufAt src.addr) = h.bufAt src.addr
    rw [bufAt_writeBuf_ne _ _ _ _ (by omega), bufAt_alloc_lt _ _ _ ha]
  · show src.addr < ((h.alloc src.size).1.writeBuf (h.alloc src.size).2
        (copiedSlots h src.addr src.size)).bufs.length
    rw [writeBuf_bufsLength]
    omega
  · show h.bufs.length ≠ src.addr
    omega

/-- What `Vector::operator=(const Vector&)` does for distinct objects, as
far as claim C5 needs: the target ends with the source's size and
element-wise equal live slots, and the source's block is untouched (the
operation writes only into the target's block or a fresh one). -/
theorem copyAssignH_spec {α : Type u} (h : Heap α) (tgt src : HVec)
    (hs : src.addr < h.bufs.length) (ht : tgt.addr < h.bufs.length)
    (hne : src.addr ≠ tgt.addr) :
    (copyAssignH h tgt src).2.size = src.size ∧
    (∀ i, i < src.size →
      Heap.slot (copyAssignH h tgt src).1 (copyAssignH h tgt src).2.addr i
        = h.slot src.addr i) ∧
    (copyAssignH h tgt src).1.bufAt src.addr = h.bufAt src.addr ∧
    src.addr < (copyAssignH h tgt src).1.bufs.length ∧
    (copyAssignH h tgt src).2.addr ≠ src.addr := by
  obtain ⟨c1, c2, c3, c4, c5, c6⟩ := copyCtorH_spec h src hs
  unfold copyAssignH
  by_cases h1 : capH h tgt < src.size
  · rw [if_pos h1]
    refine ⟨c1, ?_, ?_, ?_, c6⟩
    · intro i hi
      show (((copyCtorH h src).1.writeBuf tgt.addr
          (destroySlots ((copyCtorH h src).1.bufAt tgt.addr) tgt.size)).bufAt
          (copyCtorH h src).2.addr).getD i none = h.slot src.addr i
      rw [bufAt_writeBuf_ne _ _ _ _ (by show h.bufs.length ≠ tgt.addr; omega)]
      exact c3 i hi
    · show (((copyCtorH h src).1.writeBuf tgt.addr
          (destroySlots ((copyCtorH h src).1.bufAt tgt.addr) tgt.size)).bufAt src.addr)
        = h.bufAt src.addr
      rw [bufAt_writeBuf_ne _ _ _ _ hne]
      exact c4
    · show src.addr < ((copyCtorH h src).1.writeBuf tgt.addr
          (destroySlots ((copyCtorH h src).1.bufAt tgt.addr) tgt.size)).bufs.length
      rw [writeBuf_bufsLength]
      exact c5
  · rw [if_neg h1]
    by_cases h2 : src.size < tgt.size
    · rw [if_pos h2]
      have hb1len : src.size ≤
          (copiedSlots h src.addr src.size ++ (h.bufAt tgt.addr).drop src.size).length := by
        simp [copiedSlots]
      refine ⟨rfl, ?_, ?_, ?_, Ne.symm hne⟩
      · intro i hi
        show ((h.writeBuf tgt.addr
            (setRange (copiedSlots h src.addr src.size ++ (h.bufAt tgt.addr).drop src.size)
              src.size tgt.size none)).bufAt tgt.addr).getD i none = h.slot src.addr i
        rw [bufAt_writeBuf_eq _ _ _ ht, getD_setRange_lt _ _ _ _ _ hi hb1len]
        exact getD_copied_append h src.addr src.size i _ hi
      · exact bufAt_writeBuf_ne _ _ _ _ hne
      · show src.addr < (h.writeBuf tgt.addr
            (setRange (copiedSlots h src.addr src.size ++ (h.bufAt tgt.addr).drop src.size)
              src.size tgt.size none)).bufs.length
        rw [writeBuf_bufsLength]
        exact hs
    · rw [if_neg h2]
      refine ⟨rfl, ?_, ?_, ?_, Ne.symm hne⟩
      · intro i hi
        show ((h.writeBuf tgt.addr
            (copiedSlots h src.addr src.size ++ (h.bufAt tgt.addr).drop src.size)).bufAt
            tgt.addr).getD i none = h.slot src.addr i
        rw [bufAt_writeBuf_eq _ _ _ ht]
        exact getD_copied_append h src.addr src.size i _ hi
      · exact bufAt_writeBuf_ne _ _ _ _ hne
      · show src.addr < (h.writeBuf tgt.addr
            (copiedSlots h src.addr src.size ++ (h.bufAt tgt.addr).drop src.size)).bufs.length
        rw [writeBuf_bufsLength]
        exact hs

/-- **C5.** Duplicating a vector `A` into `B` — by copy construction, or by
copy assignment onto an existing distinct vector `b0` — makes `B`'s size
equal to `A`'s size and `B` element-wise equal to `A` on the live slots
`[0, A.size)`; and `B` is independent of `A`: the duplication itself and any
subsequent sequence of mutations of `B` (append, pop, reserve, resize,
insert, erase) leave the block `A` owns — hence `A`'s elements and
capacity — exactly as it was (`A`'s handle, so its size, is untouched by
construction). -/
theorem claim_C5_copy_independence {α : Type u} (h : Heap α) (a b0 : HVec)
    (ha : a.addr < h.bufs.length) (hb0 : b0.addr < h.bufs.length)
    (hab : b0.addr ≠ a.addr) :
    ((copyCtorH h a).2.size = a.size ∧
      (∀ i, i < a.size →
        Heap.slot (copyCtorH h a).1 (copyCtorH h a).2.addr i = h.slot a.addr i) ∧
      (copyCtorH h a).1.bufAt a.addr = h.bufAt a.addr ∧
      (∀ ms : List (Mut α),
        (applyMuts ms (copyCtorH h a).1 (copyCtorH h a).2).1.bufAt a.addr
          = h.bufAt a.addr)) ∧
    ((copyAssignH h b0 a).2.size = a.size ∧
      (∀ i, i < a.size →
        Heap.slot (copyAssignH h b0 a).1 (copyAssignH h b0 a).2.addr i
          = h.slot a.addr i) ∧
      (copyAssignH h b0 a).1.bufAt a.addr = h.bufAt a.addr ∧
      (∀ ms : List (Mut α),
        (applyMuts ms (copyAssignH h b0 a).1 (copyAssignH h b0 a).2).1.bufAt a.addr
          = h.bufAt a.addr)) := by
  obtain ⟨c1, c2, c3, c4, c5, c6⟩ := copyCtorH_spec h a ha
  obtain ⟨d1, d2, d3, d4, d5⟩ := copyAssignH_spec h b0 a ha hb0 (Ne.symm hab)
  refine ⟨⟨c1, c3, c4, ?_⟩, ⟨d1, d2, d3, ?_⟩⟩
  · intro ms
    exact ((applyMuts_frame ms _ _ a.addr c5 (Ne.symm c6)).1).trans c4
  · intro ms
    exact ((applyMuts_frame ms _ _ a.addr d4 (Ne.symm d5)).1).trans d3

/-- Witness for C5: duplicating `A = [1, 2]` gives a size-2 copy with equal
slot 0, and pushing/erasing on the duplicate — or on the assigned-to
vector — leaves `A`'s block untouched. -/
theorem claim_C5_copy_independence_witness :
    aW.addr < heapW.bufs.length ∧ b0W.addr < heapW.bufs.length ∧ b0W.addr ≠ aW.addr ∧
    (copyCtorH heapW aW).2.size = aW.size ∧
    Heap.slot (copyCtorH heapW aW).1 (copyCtorH heapW aW).2.addr 0
      = Heap.slot heapW aW.addr 0 ∧
    (applyMuts [Mut.push 7, Mut.eraseAt 0] (copyCtorH heapW aW).1
        (copyCtorH heapW aW).2).1.bufAt aW.addr = heapW.bufAt aW.addr ∧
    (copyAssignH heapW b0W aW).2.size = aW.size ∧
    (applyMuts [Mut.push 7] (copyAssignH heapW b0W aW).1
        (copyAssignH heapW b0W aW).2).1.bufAt aW.addr = heapW.bufAt aW.addr :=
  ⟨by decide, by decide, by decide,
    (claim_C5_copy_independence heapW aW b0W (by decide) (by decide) (by decide)).1.1,
    (claim_C5_copy_independence heapW aW b0W (by decide) (by decide) (by decide)).1.2.1 0
      (by decide),
    (claim_C5_copy_independence heapW aW b0W (by decide) (by decide) (by decide)).1.2.2.2
      [Mut.push 7, Mut.eraseAt 0],
    (claim_C5_copy_independence heapW aW b0W (by decide) (by decide) (by decide)).2.1,
    (claim_C5_copy_independence heapW aW b0W (by decide) (by decide) (by decide)).2.2.2.2
      [Mut.push 7]⟩

end VectorModel
